import Mathlib

/-!
Verification of the BSM_Example notebook.

This file shallowly embeds the two components of the notebook
`src/notebook/BSM_Example.ipynb`:

* the closed-form Black-Scholes-Merton put pricer (`ds`, `put`), embedded
  over the real numbers, with `scipy.stats.norm.cdf` embedded as the
  integral of the standard normal density; and

* the training routine `fit_net`, embedded as a pure fold over the epoch
  counter.  The tensor arithmetic (one Adam step on the training split, the
  mean-squared-error test loss) is kept abstract as parameters `mkStep` /
  `mkTestLoss`, because the claims under scrutiny concern the split
  arithmetic, the best-loss/checkpoint bookkeeping and the reference
  semantics of `state_dict`, none of which depend on the numerics.  Float
  scalars of the loop (losses, fractions) are embedded as rationals, which
  keeps the whole loop computable; every IEEE double is a rational number.

A modelling note on checkpoints: `torch.nn.Module.state_dict()` and
`torch.optim.Optimizer.state_dict()` return dictionaries whose tensor
entries are references to the module's / optimizer's *live* tensors, not
copies.  The notebook stores these dictionaries in its checkpoint, so the
parameter values one reads out of the checkpoint at any later time are the
parameter values of the (single) network at that time.  The embedding makes
this explicit: a `Checkpoint` stores the two architecture integers, and
reading the checkpoint's `model_state_dict` is modelled by `stateDictValue`
(during the loop) and `checkpointModelStateDict` (on the returned value),
both of which dereference to the live parameters.
-/

open MeasureTheory Real Set

namespace BSM

/-- Density of the standard normal distribution; `scipy.stats.norm.pdf`. -/
noncomputable def stdNormalPDF (t : ℝ) : ℝ :=
  (Real.sqrt (2 * Real.pi))⁻¹ * Real.exp (-t ^ 2 / 2)

/-- Cumulative distribution function of the standard normal distribution;
`scipy.stats.norm.cdf` from the notebook's imports. -/
noncomputable def stdNormalCDF (x : ℝ) : ℝ :=
  ∫ t in Set.Iic x, stdNormalPDF t

/-- The helper `ds` of the notebook:
```
def ds(K, S, T, vol, r, q):
    vol_T = vol * np.sqrt(T)
    d1 = (np.log(S/K) + (r - q + 0.5 * vol * vol) * T) / vol_T
    d2 = d1 - vol_T
    return d1, d2
``` -/
noncomputable def ds (K S T vol r q : ℝ) : ℝ × ℝ :=
  let vol_T := vol * Real.sqrt T
  let d1 := (Real.log (S / K) + (r - q + 0.5 * vol * vol) * T) / vol_T
  let d2 := d1 - vol_T
  (d1, d2)

/-- The pricer `put` of the notebook:
```
def put(K, S, T, vol, r, q):
    disc = np.exp(-r * T)
    pv_K = K * disc
    spot_after_div = S * np.exp(-q * T)
    d1, d2 = ds(K, S, T, vol, r, q)
    v = norm.cdf(-d2) * pv_K - norm.cdf(-d1) * spot_after_div
    return v
``` -/
noncomputable def put (K S T vol r q : ℝ) : ℝ :=
  let disc := Real.exp (-r * T)
  let pv_K := K * disc
  let spot_after_div := S * Real.exp (-q * T)
  let d := ds K S T vol r q
  stdNormalCDF (-d.2) * pv_K - stdNormalCDF (-d.1) * spot_after_div

/-- The side conditions under which the expressions of `ds` perform no
division by zero (`/ vol_T`) and take no logarithm of a non-positive
number (`np.log(S/K)`).  These are the only two partial operations in
`ds` and `put`. -/
def dsSafe (K S T vol : ℝ) : Prop :=
  vol * Real.sqrt T ≠ 0 ∧ 0 < S / K

/-- Rounding as performed by `int(np.round(x))`: numpy rounds half to
even, and `int` of the resulting integral float is exact. -/
def npRound (x : ℚ) : ℤ :=
  if x - ⌊x⌋ = 1 / 2 then (if 2 ∣ ⌊x⌋ then ⌊x⌋ else ⌊x⌋ + 1) else round x

/-- Clamping of an integer index to a list of length `n`, as performed by a
Python slice bound (negative bounds count from the end). -/
def pyIdx (n : ℕ) (i : ℤ) : ℕ :=
  if i < 0 then ((n : ℤ) + i).toNat else min i.toNat n

/-- Python slice `x[i:j]` on a list. -/
def pySlice {α : Type} (x : List α) (i j : ℤ) : List α :=
  (x.take (pyIdx x.length j)).drop (pyIdx x.length i)

/-- The boundary `n_train = int(np.round(n * (1 - pct_test - pct_validation)))`. -/
def nTrainOf (n : ℕ) (pct_test pct_validation : ℚ) : ℤ :=
  npRound ((n : ℚ) * (1 - pct_test - pct_validation))

/-- The boundary `n_test = int(np.round(n * pct_test))`. -/
def nTestOf (n : ℕ) (pct_test : ℚ) : ℤ :=
  npRound ((n : ℚ) * pct_test)

/-- The slice `x_train = x[:n_train]` (and likewise `y_train`). -/
def trainSlice {α : Type} (x : List α) (n : ℕ) (pct_test pct_validation : ℚ) : List α :=
  pySlice x 0 (nTrainOf n pct_test pct_validation)

/-- The slice `x_test = x[n_train:(n_train + n_test)]` (and likewise
`y_test`). -/
def testSlice {α : Type} (x : List α) (n : ℕ) (pct_test pct_validation : ℚ) : List α :=
  pySlice x (nTrainOf n pct_test pct_validation)
    (nTrainOf n pct_test pct_validation + nTestOf n pct_test)

/-- The checkpoint dictionary recorded by `fit_net`.  Besides the two
architecture integers it holds `net.state_dict()` and
`optimizer.state_dict()`; both are dictionaries of references to the live
tensors of the single network / optimizer of the run, so they carry no
independent data and are read through `stateDictValue` /
`checkpointModelStateDict` below. -/
structure Checkpoint where
  n_hidden : ℕ
  n_layers : ℕ
  deriving DecidableEq

/-- The mutable state of the training loop of `fit_net`: the network
parameters, the Adam optimizer state, the best test loss seen so far and
the (possibly absent) recorded checkpoint. -/
structure LoopState (P A : Type) where
  params : P
  adam : A
  best_l : ℚ
  checkpoint : Option Checkpoint
  deriving DecidableEq

/-- The initial value `best_l = 1e-3` of `fit_net`, written as the rational
it denotes. -/
def bestInit : ℚ := 1 / 1000

/-- One epoch of the loop of `fit_net`: the test loss is computed by a
forward pass on the parameters as they stand at the top of the epoch, the
train loss is backpropagated and one Adam step is applied (`step`), and on
strict improvement of the test loss the best value is updated and the
checkpoint dictionary is (re)recorded. -/
def epochStep {P A : Type} (step : P → A → P × A) (testLoss : P → ℚ)
    (nh nl : ℕ) (s : LoopState P A) : LoopState P A :=
  let l := testLoss s.params
  let pa := step s.params s.adam
  if l < s.best_l then
    { params := pa.1, adam := pa.2, best_l := l, checkpoint := some ⟨nh, nl⟩ }
  else
    { params := pa.1, adam := pa.2, best_l := s.best_l, checkpoint := s.checkpoint }

/-- Reading the `model_state_dict` entry of the recorded checkpoint while
the loop is in state `s`: the dictionary's tensors are references to the
live network parameters, so the value read is `s.params`. -/
def stateDictValue {P A : Type} (s : LoopState P A) : Option P :=
  s.checkpoint.map (fun _ => s.params)

/-- The observable outcome of a call to `fit_net`: the returned pair
`(best_l, checkpoint)` together with the network parameters and optimizer
state as they stand when `fit_net` returns (these are what the returned
checkpoint's state dicts reference). -/
structure FitResult (P A : Type) where
  best_l : ℚ
  checkpoint : Option Checkpoint
  netParams : P
  optState : A
  deriving DecidableEq

/-- Reading the `model_state_dict` entry of the checkpoint returned by
`fit_net`: its tensors reference the live network parameters, i.e. the
final parameters of the run. -/
def checkpointModelStateDict {P A : Type} (res : FitResult P A) : Option P :=
  res.checkpoint.map (fun _ => res.netParams)

/-- The routine `fit_net` of the notebook.  `n = y.size()[0]`; the train
and test splits are taken positionally with the rounded boundaries; the
network and the data are moved to the compute device (a placement detail
with no observable effect here); then `n_epochs` epochs are run from
`best_l = 1e-3`, `checkpoint = {}`.  The Adam step on the training split
and the mean-squared-error loss on the test split are abstracted as
`mkStep`/`mkTestLoss`, applied to the splits that `fit_net` computes.  The
progress `print` every 100 epochs has no effect on control flow or state
and is not modelled; the local `l = 123.45` is dead (overwritten before
every read). -/
def fitNet {P A F L : Type}
    (mkStep : List F → List L → P → A → P × A)
    (mkTestLoss : List F → List L → P → ℚ)
    (adamInit : A) (nh nl : ℕ) (p0 : P) (n_epochs : ℕ)
    (x : List F) (y : List L) (pct_test pct_validation : ℚ) : FitResult P A :=
  let n := y.length
  let x_train := trainSlice x n pct_test pct_validation
  let x_test := testSlice x n pct_test pct_validation
  let y_train := trainSlice y n pct_test pct_validation
  let y_test := testSlice y n pct_test pct_validation
  let step := mkStep x_train y_train
  let testLoss := mkTestLoss x_test y_test
  let final := (epochStep step testLoss nh nl)^[n_epochs]
    { params := p0, adam := adamInit, best_l := bestInit, checkpoint := none }
  { best_l := final.best_l, checkpoint := final.checkpoint,
    netParams := final.params, optState := final.adam }

/-- The network parameters and optimizer state after `e` optimizer steps
from `(p0, a0)`.  The parameter trajectory of the loop does not depend on
the bookkeeping (`best_l`, `checkpoint`). -/
def paramsAdamAt {P A : Type} (step : P → A → P × A) (p0 : P) (a0 : A) (e : ℕ) : P × A :=
  (fun pa => step pa.1 pa.2)^[e] (p0, a0)

/-! ## Helper lemmas -/

theorem epochStep_eq {P A : Type} (step : P → A → P × A) (testLoss : P → ℚ)
    (nh nl : ℕ) (s : LoopState P A) :
    epochStep step testLoss nh nl s =
      if testLoss s.params < s.best_l then
        { params := (step s.params s.adam).1, adam := (step s.params s.adam).2,
          best_l := testLoss s.params, checkpoint := some ⟨nh, nl⟩ }
      else
        { params := (step s.params s.adam).1, adam := (step s.params s.adam).2,
          best_l := s.best_l, checkpoint := s.checkpoint } := rfl

/-- If no epoch up to `n` improves on `b0`, the loop keeps `b0` and the
initial checkpoint, while the parameters and optimizer state follow the
step trajectory. -/
theorem loop_no_improvement {P A : Type} (step : P → A → P × A) (testLoss : P → ℚ)
    (nh nl : ℕ) (p0 : P) (a0 : A) (b0 : ℚ) (c0 : Option Checkpoint) (n : ℕ)
    (h : ∀ e < n, ¬ testLoss (paramsAdamAt step p0 a0 e).1 < b0) :
    (epochStep step testLoss nh nl)^[n] ⟨p0, a0, b0, c0⟩ =
      ⟨(paramsAdamAt step p0 a0 n).1, (paramsAdamAt step p0 a0 n).2, b0, c0⟩ := by
  induction n with
  | zero => rfl
  | succ n ih =>
    rw [Function.iterate_succ_apply',
      ih (fun e he => h e (he.trans (Nat.lt_succ_self n)))]
    have hn := h n (Nat.lt_succ_self n)
    simp only [paramsAdamAt] at hn
    simp only [epochStep, paramsAdamAt, Function.iterate_succ_apply', hn,
      if_false]

theorem npRound_nonneg {x : ℚ} (hx : 0 ≤ x) : 0 ≤ npRound x := by
  unfold npRound
  have hfl : (0 : ℤ) ≤ ⌊x⌋ := Int.floor_nonneg.2 hx
  split
  · split
    · exact hfl
    · omega
  · have : (0 : ℚ) ≤ x + 1 / 2 := by linarith
    simpa [round_eq] using Int.floor_nonneg.2 this

theorem take_min_length {α : Type} (x : List α) (k : ℕ) :
    x.take (min k x.length) = x.take k := by
  rcases le_total k x.length with h | h
  · rw [min_eq_left h]
  · rw [min_eq_right h, List.take_length, List.take_of_length_le h]

theorem drop_min_of_le {α : Type} (l : List α) (k n : ℕ) (hl : l.length ≤ n) :
    l.drop (min k n) = l.drop k := by
  rcases le_total k n with h | h
  · rw [min_eq_left h]
  · rw [min_eq_right h, List.drop_of_length_le hl,
      List.drop_of_length_le (hl.trans h)]

theorem stdNormalPDF_pos (t : ℝ) : 0 < stdNormalPDF t := by
  unfold stdNormalPDF
  positivity

theorem stdNormalPDF_even (t : ℝ) : stdNormalPDF (-t) = stdNormalPDF t := by
  unfold stdNormalPDF
  rw [neg_sq]

theorem continuous_stdNormalPDF : Continuous stdNormalPDF := by
  unfold stdNormalPDF
  fun_prop

theorem stdNormalPDF_eq_gauss : stdNormalPDF =
    fun t => (Real.sqrt (2 * Real.pi))⁻¹ * Real.exp (-(1 / 2 : ℝ) * t ^ 2) := by
  funext t
  unfold stdNormalPDF
  rw [show -(1 / 2 : ℝ) * t ^ 2 = -t ^ 2 / 2 from by ring]

theorem integrable_stdNormalPDF : Integrable stdNormalPDF := by
  rw [stdNormalPDF_eq_gauss]
  exact (integrable_exp_neg_mul_sq (by norm_num : (0 : ℝ) < 1 / 2)).const_mul _

theorem integral_stdNormalPDF : ∫ t, stdNormalPDF t = 1 := by
  have h : (∫ t : ℝ, Real.exp (-(1 / 2 : ℝ) * t ^ 2)) =
      Real.sqrt (Real.pi / (1 / 2)) := integral_gaussian (1 / 2)
  simp only [stdNormalPDF_eq_gauss]
  rw [integral_mul_left, h, show (Real.pi / (1 / 2 : ℝ)) = 2 * Real.pi from by ring]
  exact inv_mul_cancel₀ (Real.sqrt_ne_zero'.mpr (by positivity))

theorem stdNormalCDF_nonneg (x : ℝ) : 0 ≤ stdNormalCDF x :=
  setIntegral_nonneg measurableSet_Iic fun t _ => (stdNormalPDF_pos t).le

theorem stdNormalCDF_le_one (x : ℝ) : stdNormalCDF x ≤ 1 := by
  rw [← integral_stdNormalPDF]
  exact setIntegral_le_integral integrable_stdNormalPDF
    (ae_of_all _ fun t => (stdNormalPDF_pos t).le)

/-- Tilting the standard normal density by `exp (c·t)` shifts it by `c`. -/
theorem exp_mul_stdNormalPDF (c t : ℝ) :
    Real.exp (c * t) * stdNormalPDF t =
      Real.exp (c ^ 2 / 2) * stdNormalPDF (t - c) := by
  unfold stdNormalPDF
  rw [show Real.exp (c * t) * ((Real.sqrt (2 * Real.pi))⁻¹ * Real.exp (-t ^ 2 / 2)) =
      (Real.sqrt (2 * Real.pi))⁻¹ * (Real.exp (c * t) * Real.exp (-t ^ 2 / 2)) from by
        ring,
    show Real.exp (c ^ 2 / 2) *
        ((Real.sqrt (2 * Real.pi))⁻¹ * Real.exp (-(t - c) ^ 2 / 2)) =
      (Real.sqrt (2 * Real.pi))⁻¹ *
        (Real.exp (c ^ 2 / 2) * Real.exp (-(t - c) ^ 2 / 2)) from by ring,
    ← Real.exp_add, ← Real.exp_add,
    show c * t + -t ^ 2 / 2 = c ^ 2 / 2 + -(t - c) ^ 2 / 2 from by ring]

/-- Translation invariance of the integral over a half-line. -/
theorem integral_Iic_comp_sub (f : ℝ → ℝ) (a c : ℝ) :
    ∫ t in Set.Iic a, f (t - c) = ∫ t in Set.Iic (a - c), f t := by
  rw [← integral_indicator measurableSet_Iic, ← integral_indicator measurableSet_Iic,
    ← integral_sub_right_eq_self (Set.indicator (Set.Iic (a - c)) f) c]
  congr 1
  funext t
  simp only [Set.indicator_apply, Set.mem_Iic]
  by_cases h : t ≤ a
  · rw [if_pos h, if_pos (by linarith)]
  · rw [if_neg h, if_neg (fun hc => h (by linarith))]

theorem integrable_exp_mul_stdNormalPDF (c : ℝ) :
    Integrable (fun t => Real.exp (c * t) * stdNormalPDF t) := by
  have h : Integrable (fun t : ℝ => Real.exp (c ^ 2 / 2) * stdNormalPDF (t - c)) :=
    (integrable_stdNormalPDF.comp_sub_right c).const_mul _
  exact h.congr (ae_of_all _ fun t => (exp_mul_stdNormalPDF c t).symm)

/-- The exponentially tilted normal integral over a half-line. -/
theorem integral_Iic_exp_mul_stdNormalPDF (a c : ℝ) :
    ∫ t in Set.Iic a, Real.exp (c * t) * stdNormalPDF t =
      Real.exp (c ^ 2 / 2) * stdNormalCDF (a - c) := by
  calc ∫ t in Set.Iic a, Real.exp (c * t) * stdNormalPDF t
      = ∫ t in Set.Iic a, Real.exp (c ^ 2 / 2) * stdNormalPDF (t - c) :=
        integral_congr_ae (ae_of_all _ fun t => exp_mul_stdNormalPDF c t)
    _ = Real.exp (c ^ 2 / 2) * ∫ t in Set.Iic a, stdNormalPDF (t - c) :=
        integral_mul_left _ _
    _ = Real.exp (c ^ 2 / 2) * stdNormalCDF (a - c) := by
        rw [integral_Iic_comp_sub]
        rfl

theorem stdNormalCDF_sub_zero (x : ℝ) :
    stdNormalCDF x = stdNormalCDF 0 + ∫ t in (0 : ℝ)..x, stdNormalPDF t := by
  have h : (∫ t in Set.Iic x, stdNormalPDF t) -
      ∫ t in Set.Iic (0 : ℝ), stdNormalPDF t =
      ∫ t in (0 : ℝ)..x, stdNormalPDF t :=
    intervalIntegral.integral_Iic_sub_Iic integrable_stdNormalPDF.integrableOn
      integrable_stdNormalPDF.integrableOn
  unfold stdNormalCDF
  linarith

theorem hasDerivAt_stdNormalCDF (x : ℝ) :
    HasDerivAt stdNormalCDF (stdNormalPDF x) x := by
  have hfun : stdNormalCDF =
      fun u => stdNormalCDF 0 + ∫ t in (0 : ℝ)..u, stdNormalPDF t :=
    funext stdNormalCDF_sub_zero
  rw [hfun]
  exact HasDerivAt.const_add _
    (continuous_stdNormalPDF.integral_hasStrictDerivAt 0 x).hasDerivAt

/-- The product of `vol·√T` with the `d1` of `ds`, for `T ≥ 0`. -/
theorem vol_mul_d1 (K S T vol r q : ℝ) (hT : 0 ≤ T)
    (hc : vol * Real.sqrt T ≠ 0) :
    vol * Real.sqrt T * (ds K S T vol r q).1 =
      Real.log (S / K) + (r - q) * T + (vol * Real.sqrt T) ^ 2 / 2 := by
  have hsq : Real.sqrt T ^ 2 = T := Real.sq_sqrt hT
  simp only [ds]
  rw [mul_comm (vol * Real.sqrt T) _, div_mul_cancel₀ _ hc]
  linear_combination (-(vol ^ 2) / 2) * hsq

/-- The product of `vol·√T` with the `d2` of `ds`, for `T ≥ 0`. -/
theorem vol_mul_d2 (K S T vol r q : ℝ) (hT : 0 ≤ T)
    (hc : vol * Real.sqrt T ≠ 0) :
    vol * Real.sqrt T * (ds K S T vol r q).2 =
      Real.log (S / K) + (r - q) * T - (vol * Real.sqrt T) ^ 2 / 2 := by
  have h1 := vol_mul_d1 K S T vol r q hT hc
  have h2 : (ds K S T vol r q).2 = (ds K S T vol r q).1 - vol * Real.sqrt T := rfl
  rw [h2]
  linear_combination h1

/-- The discounted strike equals the discounted spot tilted by the factor
`exp (-c²/2 - c·d2)`, `c = vol·√T`: the exponent algebra behind both the
lower price bound and the vega computation. -/
theorem discount_identity (K S T vol r q : ℝ) (hK : 0 < K) (hS : 0 < S)
    (hT : 0 < T) (hc : vol * Real.sqrt T ≠ 0) :
    S * Real.exp (-q * T) *
      Real.exp (-(vol * Real.sqrt T) ^ 2 / 2 -
        vol * Real.sqrt T * (ds K S T vol r q).2) = K * Real.exp (-r * T) := by
  have h2 := vol_mul_d2 K S T vol r q hT.le hc
  have hL : Real.log (S / K) = Real.log S - Real.log K :=
    Real.log_div hS.ne' hK.ne'
  rw [h2, hL,
    show -(vol * Real.sqrt T) ^ 2 / 2 -
        (Real.log S - Real.log K + (r - q) * T -
          (vol * Real.sqrt T) ^ 2 / 2) =
      -(Real.log S - Real.log K) + (-r * T + q * T) from by ring,
    mul_assoc, ← Real.exp_add,
    show -q * T + (-(Real.log S - Real.log K) + (-r * T + q * T)) =
      Real.log K - Real.log S + -r * T from by ring,
    Real.exp_add, Real.exp_sub, Real.exp_log hK, Real.exp_log hS]
  field_simp

/-- The Black-Scholes density identity
`K·exp(-rT)·φ(d2) = S·exp(-qT)·φ(d1)`. -/
theorem pdf_identity (K S T vol r q : ℝ) (hK : 0 < K) (hS : 0 < S)
    (hT : 0 < T) (hc : vol * Real.sqrt T ≠ 0) :
    K * Real.exp (-r * T) * stdNormalPDF ((ds K S T vol r q).2) =
      S * Real.exp (-q * T) * stdNormalPDF ((ds K S T vol r q).1) := by
  have h1 := vol_mul_d1 K S T vol r q hT.le hc
  have hL : Real.log (S / K) = Real.log S - Real.log K :=
    Real.log_div hS.ne' hK.ne'
  have h2 : (ds K S T vol r q).2 = (ds K S T vol r q).1 - vol * Real.sqrt T := rfl
  rw [h2]
  set d1 := (ds K S T vol r q).1 with hd1
  unfold stdNormalPDF
  rw [show K = Real.exp (Real.log K) from (Real.exp_log hK).symm,
    show S = Real.exp (Real.log S) from (Real.exp_log hS).symm,
    show Real.exp (Real.log K) * Real.exp (-r * T) *
        ((Real.sqrt (2 * Real.pi))⁻¹ *
          Real.exp (-(d1 - vol * Real.sqrt T) ^ 2 / 2)) =
      (Real.sqrt (2 * Real.pi))⁻¹ *
        (Real.exp (Real.log K) * (Real.exp (-r * T) *
          Real.exp (-(d1 - vol * Real.sqrt T) ^ 2 / 2))) from by ring,
    show Real.exp (Real.log S) * Real.exp (-q * T) *
        ((Real.sqrt (2 * Real.pi))⁻¹ * Real.exp (-d1 ^ 2 / 2)) =
      (Real.sqrt (2 * Real.pi))⁻¹ *
        (Real.exp (Real.log S) * (Real.exp (-q * T) *
          Real.exp (-d1 ^ 2 / 2))) from by ring,
    ← Real.exp_add, ← Real.exp_add, ← Real.exp_add, ← Real.exp_add,
    show Real.log K + (-r * T + -(d1 - vol * Real.sqrt T) ^ 2 / 2) =
        Real.log S + (-q * T + -d1 ^ 2 / 2) from by linear_combination h1 + hL]

/-- Core inequality behind the lower price bound: if the discounted spot
`B` tilted by `exp (-c²/2 - c·d2)` equals the discounted strike `A`, then
the `A`-weighted CDF term dominates the `B`-weighted one. -/
theorem cdf_diff_nonneg (A B c d2 : ℝ) (hB : 0 ≤ B) (hc : 0 < c)
    (hkey : B * Real.exp (-c ^ 2 / 2 - c * d2) = A) :
    stdNormalCDF (-(d2 + c)) * B ≤ stdNormalCDF (-d2) * A := by
  have hsh := integral_Iic_exp_mul_stdNormalPDF (-d2) c
  have hcancel : Real.exp (-c ^ 2 / 2) * Real.exp (c ^ 2 / 2) = 1 := by
    rw [← Real.exp_add, show -c ^ 2 / 2 + c ^ 2 / 2 = 0 from by ring, Real.exp_zero]
  have hBrw : stdNormalCDF (-(d2 + c)) * B =
      ∫ t in Set.Iic (-d2),
        (B * Real.exp (-c ^ 2 / 2) * Real.exp (c * t)) * stdNormalPDF t := by
    rw [show -(d2 + c) = -d2 - c from by ring]
    calc stdNormalCDF (-d2 - c) * B
        = (B * Real.exp (-c ^ 2 / 2)) *
            (Real.exp (c ^ 2 / 2) * stdNormalCDF (-d2 - c)) := by
          rw [show (B * Real.exp (-c ^ 2 / 2)) *
              (Real.exp (c ^ 2 / 2) * stdNormalCDF (-d2 - c)) =
            (Real.exp (-c ^ 2 / 2) * Real.exp (c ^ 2 / 2)) *
              (stdNormalCDF (-d2 - c) * B) from by ring, hcancel, one_mul]
      _ = (B * Real.exp (-c ^ 2 / 2)) *
            ∫ t in Set.Iic (-d2), Real.exp (c * t) * stdNormalPDF t := by rw [← hsh]
      _ = ∫ t in Set.Iic (-d2),
            (B * Real.exp (-c ^ 2 / 2)) * (Real.exp (c * t) * stdNormalPDF t) :=
          (integral_mul_left _ _).symm
      _ = ∫ t in Set.Iic (-d2),
            (B * Real.exp (-c ^ 2 / 2) * Real.exp (c * t)) * stdNormalPDF t :=
          integral_congr_ae (ae_of_all _ fun t => by ring)
  have hArw : stdNormalCDF (-d2) * A = ∫ t in Set.Iic (-d2), A * stdNormalPDF t := by
    rw [integral_mul_left]
    unfold stdNormalCDF
    ring
  rw [hBrw, hArw]
  refine setIntegral_mono_on ?_ ?_ measurableSet_Iic ?_
  · exact (((integrable_exp_mul_stdNormalPDF c).const_mul
      (B * Real.exp (-c ^ 2 / 2))).congr
      (ae_of_all _ fun t => by ring)).integrableOn
  · exact (integrable_stdNormalPDF.const_mul A).integrableOn
  · intro t ht
    have h1 : Real.exp (c * t) ≤ Real.exp (c * -d2) :=
      Real.exp_le_exp.2 (mul_le_mul_of_nonneg_left ht hc.le)
    have h3 : B * Real.exp (-c ^ 2 / 2) * Real.exp (c * -d2) = A := by
      rw [mul_assoc, ← Real.exp_add,
        show -c ^ 2 / 2 + c * -d2 = -c ^ 2 / 2 - c * d2 from by ring, hkey]
    calc (B * Real.exp (-c ^ 2 / 2) * Real.exp (c * t)) * stdNormalPDF t
        ≤ (B * Real.exp (-c ^ 2 / 2) * Real.exp (c * -d2)) * stdNormalPDF t := by
          refine mul_le_mul_of_nonneg_right ?_ (stdNormalPDF_pos t).le
          exact mul_le_mul_of_nonneg_left h1
            (mul_nonneg hB (Real.exp_pos _).le)
      _ = A * stdNormalPDF t := by rw [h3]

/-- The vega computation: for `v > 0` the put value, as a function of the
volatility argument, has derivative `S·exp(-qT)·φ(d1(v))·√T` at `v`. -/
theorem hasDerivAt_put_vol (K S T r q v : ℝ) (hK : 0 < K) (hS : 0 < S)
    (hT : 0 < T) (hv : 0 < v) :
    HasDerivAt (fun w => put K S T w r q)
      (S * Real.exp (-q * T) * stdNormalPDF ((ds K S T v r q).1) *
        Real.sqrt T) v := by
  have hs : 0 < Real.sqrt T := Real.sqrt_pos.2 hT
  have hsne : Real.sqrt T ≠ 0 := hs.ne'
  have hvne : v ≠ 0 := hv.ne'
  have hvs : v * Real.sqrt T ≠ 0 := (mul_pos hv hs).ne'
  have hid : HasDerivAt (fun w : ℝ => w) 1 v := hasDerivAt_id v
  have hN := ((((hid.const_mul (0.5 : ℝ)).mul hid).const_add
    (r - q)).mul_const T).const_add (Real.log (S / K))
  have hden := hid.mul_const (Real.sqrt T)
  have hd1 : HasDerivAt
      (fun w : ℝ =>
        (Real.log (S / K) + (r - q + 0.5 * w * w) * T) / (w * Real.sqrt T))
      (T / (2 * Real.sqrt T) -
        (Real.log (S / K) + (r - q) * T) / (v ^ 2 * Real.sqrt T)) v := by
    refine (hN.div hden hvs).congr_deriv ?_
    field_simp
    ring
  have hd2 : HasDerivAt
      (fun w : ℝ =>
        (Real.log (S / K) + (r - q + 0.5 * w * w) * T) / (w * Real.sqrt T) -
          w * Real.sqrt T)
      (T / (2 * Real.sqrt T) -
        (Real.log (S / K) + (r - q) * T) / (v ^ 2 * Real.sqrt T) -
        Real.sqrt T) v := by
    refine (hd1.sub hden).congr_deriv ?_
    ring
  have hcdf2 := HasDerivAt.comp_of_eq v (hasDerivAt_stdNormalCDF
      (-((Real.log (S / K) + (r - q + 0.5 * v * v) * T) / (v * Real.sqrt T) -
        v * Real.sqrt T))) hd2.neg rfl
  have hcdf1 := HasDerivAt.comp_of_eq v (hasDerivAt_stdNormalCDF
      (-((Real.log (S / K) + (r - q + 0.5 * v * v) * T) /
        (v * Real.sqrt T)))) hd1.neg rfl
  have hmech := (hcdf2.mul_const (K * Real.exp (-r * T))).sub
    (hcdf1.mul_const (S * Real.exp (-q * T)))
  have hpdf : K * Real.exp (-r * T) * stdNormalPDF
      ((Real.log (S / K) + (r - q + 0.5 * v * v) * T) / (v * Real.sqrt T) -
        v * Real.sqrt T) =
      S * Real.exp (-q * T) * stdNormalPDF
      ((Real.log (S / K) + (r - q + 0.5 * v * v) * T) / (v * Real.sqrt T)) :=
    pdf_identity K S T v r q hK hS hT hvs
  show HasDerivAt (fun w => put K S T w r q)
    (S * Real.exp (-q * T) * stdNormalPDF
      ((Real.log (S / K) + (r - q + 0.5 * v * v) * T) / (v * Real.sqrt T)) *
      Real.sqrt T) v
  refine hmech.congr_deriv ?_
  rw [stdNormalPDF_even ((Real.log (S / K) + (r - q + 0.5 * v * v) * T) /
      (v * Real.sqrt T) - v * Real.sqrt T),
    stdNormalPDF_even ((Real.log (S / K) + (r - q + 0.5 * v * v) * T) /
      (v * Real.sqrt T))]
  linear_combination (-(T / (2 * Real.sqrt T) -
    (Real.log (S / K) + (r - q) * T) / (v ^ 2 * Real.sqrt T) -
    Real.sqrt T)) * hpdf

/-- A Python slice with non-negative bounds is a take-then-drop. -/
theorem pySlice_nonneg_eq {α : Type} (x : List α) (i j : ℤ) (hi : 0 ≤ i) (hj : 0 ≤ j) :
    pySlice x i j = (x.take j.toNat).drop i.toNat := by
  simp only [pySlice, pyIdx, if_neg (not_lt.2 hi), if_neg (not_lt.2 hj)]
  rw [take_min_length]
  exact drop_min_of_le _ _ _ (List.length_take_le' _ _)

/-! ## Claims -/

/-- Claim C1: for every strike `K>0`, spot `S>0`, maturity `T>0` and
volatility `vol>0` (in fact for all real inputs), `put K S T vol r q`
equals `K·exp(-r·T)·Φ(-d2) − S·exp(-q·T)·Φ(-d1)`, where
`d1 = (ln(S/K) + (r − q + vol²/2)·T)/(vol·√T)`, `d2 = d1 − vol·√T`, and
`Φ` is the standard normal cumulative distribution function. -/
theorem put_closed_form (K S T vol r q : ℝ) :
    put K S T vol r q =
      K * Real.exp (-r * T) *
        stdNormalCDF (-((Real.log (S / K) + (r - q + vol ^ 2 / 2) * T) /
          (vol * Real.sqrt T) - vol * Real.sqrt T)) -
      S * Real.exp (-q * T) *
        stdNormalCDF (-((Real.log (S / K) + (r - q + vol ^ 2 / 2) * T) /
          (vol * Real.sqrt T))) := by
  have harg : (Real.log (S / K) + (r - q + 0.5 * vol * vol) * T) /
      (vol * Real.sqrt T) =
      (Real.log (S / K) + (r - q + vol ^ 2 / 2) * T) / (vol * Real.sqrt T) := by
    ring_nf
  simp only [put, ds]
  rw [harg]
  ring

/-- Claim C9: for positive strike, spot, maturity and volatility the
evaluation of `ds` (and hence `put`) meets no division by zero and no
logarithm of a non-positive number, while at the degenerate maturity
`T = 0` the division-by-zero condition does occur (`vol·√0 = 0`) and is
not guarded against: `put` still evaluates, propagating whatever the
degenerate subterms produce. -/
theorem ds_put_total :
    (∀ K S T vol : ℝ, 0 < K → 0 < S → 0 < T → 0 < vol → dsSafe K S T vol) ∧
    (∀ K S vol : ℝ, 0 < vol → ¬ dsSafe K S 0 vol) ∧
    (∀ K S T vol r q : ℝ,
      put K S T vol r q =
        stdNormalCDF (-(ds K S T vol r q).2) * (K * Real.exp (-r * T)) -
        stdNormalCDF (-(ds K S T vol r q).1) * (S * Real.exp (-q * T))) := by
  refine ⟨?_, ?_, ?_⟩
  · intro K S T vol hK hS hT hvol
    exact ⟨(mul_pos hvol (Real.sqrt_pos.2 hT)).ne', div_pos hS hK⟩
  · intro K S vol _ h
    exact h.1 (by simp)
  · intro K S T vol r q
    rfl

/-- Witness for C9 at concrete inputs. -/
theorem ds_put_total_witness : dsSafe 1 1 1 1 ∧ ¬ dsSafe 1 1 0 1 :=
  ⟨ds_put_total.1 1 1 1 1 one_pos one_pos one_pos one_pos,
   ds_put_total.2.1 1 1 1 one_pos⟩

/-- Claim C6: for every strike `K>0`, spot `S>0`, maturity `T>0` and
volatility `vol>0`, the value of `put` lies in the closed interval
`[0, K·exp(-r·T)]`. -/
theorem put_bounds (K S T vol r q : ℝ) (hK : 0 < K) (hS : 0 < S) (hT : 0 < T)
    (hvol : 0 < vol) :
    0 ≤ put K S T vol r q ∧ put K S T vol r q ≤ K * Real.exp (-r * T) := by
  have hc : 0 < vol * Real.sqrt T := mul_pos hvol (Real.sqrt_pos.2 hT)
  have hkey := discount_identity K S T vol r q hK hS hT hc.ne'
  have hput : put K S T vol r q =
      stdNormalCDF (-(ds K S T vol r q).2) * (K * Real.exp (-r * T)) -
      stdNormalCDF (-(ds K S T vol r q).1) * (S * Real.exp (-q * T)) := rfl
  have hd12 : (ds K S T vol r q).1 = (ds K S T vol r q).2 + vol * Real.sqrt T := by
    have h : (ds K S T vol r q).2 = (ds K S T vol r q).1 - vol * Real.sqrt T := rfl
    linarith
  constructor
  · rw [hput, sub_nonneg, hd12]
    exact cdf_diff_nonneg (K * Real.exp (-r * T)) (S * Real.exp (-q * T))
      (vol * Real.sqrt T) ((ds K S T vol r q).2)
      (mul_nonneg hS.le (Real.exp_pos _).le) hc hkey
  · rw [hput]
    have h1 : stdNormalCDF (-(ds K S T vol r q).2) * (K * Real.exp (-r * T)) ≤
        K * Real.exp (-r * T) :=
      mul_le_of_le_one_left (by positivity) (stdNormalCDF_le_one _)
    have h2 : 0 ≤ stdNormalCDF (-(ds K S T vol r q).1) * (S * Real.exp (-q * T)) :=
      mul_nonneg (stdNormalCDF_nonneg _) (by positivity)
    linarith

/-- Witness for C6 at concrete inputs. -/
theorem put_bounds_witness :
    0 ≤ put 1 1 1 1 0 0 ∧ put 1 1 1 1 0 0 ≤ 1 * Real.exp (-0 * 1) :=
  put_bounds 1 1 1 1 0 0 (by norm_num) (by norm_num) (by norm_num) (by norm_num)

/-- Claim C7: holding strike `K>0`, spot `S>0`, maturity `T>0`, rate and
dividend fixed, `put` is monotonically non-decreasing in the volatility
argument: for `0 < v1 ≤ v2`, `put K S T v1 r q ≤ put K S T v2 r q`. -/
theorem put_mono_vol (K S T r q : ℝ) (hK : 0 < K) (hS : 0 < S) (hT : 0 < T)
    (v1 v2 : ℝ) (hv1 : 0 < v1) (h12 : v1 ≤ v2) :
    put K S T v1 r q ≤ put K S T v2 r q := by
  have hmono : StrictMonoOn (fun w => put K S T w r q) (Set.Ioi 0) := by
    refine strictMonoOn_of_deriv_pos (convex_Ioi 0) ?_ ?_
    · intro w hw
      exact ((hasDerivAt_put_vol K S T r q w hK hS hT
        (Set.mem_Ioi.1 hw)).differentiableAt.continuousAt).continuousWithinAt
    · intro w hw
      rw [interior_Ioi] at hw
      rw [(hasDerivAt_put_vol K S T r q w hK hS hT (Set.mem_Ioi.1 hw)).deriv]
      exact mul_pos (mul_pos (mul_pos hS (Real.exp_pos _))
        (stdNormalPDF_pos _)) (Real.sqrt_pos.2 hT)
  rcases eq_or_lt_of_le h12 with h | h
  · rw [h]
  · exact (hmono (Set.mem_Ioi.2 hv1) (Set.mem_Ioi.2 (hv1.trans h)) h).le

/-- Witness for C7 at concrete inputs. -/
theorem put_mono_vol_witness : put 1 1 1 1 0 0 ≤ put 1 1 1 2 0 0 :=
  put_mono_vol 1 1 1 0 0 (by norm_num) (by norm_num) (by norm_num) 1 2
    (by norm_num) (by norm_num)

/-- Claim C4: `fit_net` initializes its best-loss threshold to `1e-3`
rather than `+∞`; an epoch records a checkpoint iff its test loss is
strictly below the best value seen so far; consequently, in a run where no
epoch's test loss falls strictly below `1e-3`, the returned checkpoint is
the empty dictionary (and the returned best loss is still `1e-3`). -/
theorem fit_net_floor {P A F L : Type}
    (mkStep : List F → List L → P → A → P × A)
    (mkTestLoss : List F → List L → P → ℚ)
    (adamInit : A) (nh nl : ℕ) (p0 : P) (n_epochs : ℕ)
    (x : List F) (y : List L) (pct_test pct_validation : ℚ) :
    bestInit = 1 / 1000 ∧
    (∀ (step : P → A → P × A) (testLoss : P → ℚ) (s : LoopState P A),
      epochStep step testLoss nh nl s =
        if testLoss s.params < s.best_l then
          { params := (step s.params s.adam).1, adam := (step s.params s.adam).2,
            best_l := testLoss s.params, checkpoint := some ⟨nh, nl⟩ }
        else
          { params := (step s.params s.adam).1, adam := (step s.params s.adam).2,
            best_l := s.best_l, checkpoint := s.checkpoint }) ∧
    ((∀ e < n_epochs,
        ¬ mkTestLoss (testSlice x y.length pct_test pct_validation)
            (testSlice y y.length pct_test pct_validation)
            (paramsAdamAt
              (mkStep (trainSlice x y.length pct_test pct_validation)
                (trainSlice y y.length pct_test pct_validation)) p0 adamInit e).1 <
          bestInit) →
      (fitNet mkStep mkTestLoss adamInit nh nl p0 n_epochs x y
          pct_test pct_validation).checkpoint = none ∧
      (fitNet mkStep mkTestLoss adamInit nh nl p0 n_epochs x y
          pct_test pct_validation).best_l = bestInit) := by
  refine ⟨by norm_num [bestInit], fun step testLoss s => epochStep_eq .., ?_⟩
  intro h
  have := loop_no_improvement
    (mkStep (trainSlice x y.length pct_test pct_validation)
      (trainSlice y y.length pct_test pct_validation))
    (mkTestLoss (testSlice x y.length pct_test pct_validation)
      (testSlice y y.length pct_test pct_validation))
    nh nl p0 adamInit bestInit none n_epochs h
  constructor <;> simp [fitNet, this]

/-- Witness for C4 at a concrete instantiation: constant test loss `1`
never beats the floor, so two epochs return an empty checkpoint. -/
theorem fit_net_floor_witness :
    bestInit = 1 / 1000 ∧
    (fitNet (fun _ _ (p : ℤ) (a : Unit) => (p + 1, a)) (fun _ _ _ => 1)
      () 100 4 0 2 ([0, 1, 2] : List ℤ) ([0, 1, 2] : List ℤ)
      (1 / 5) (1 / 10)).checkpoint = none :=
  ⟨(fit_net_floor (fun _ _ (p : ℤ) (a : Unit) => (p + 1, a)) (fun _ _ _ => 1)
      () 100 4 0 2 ([0, 1, 2] : List ℤ) ([0, 1, 2] : List ℤ) (1 / 5) (1 / 10)).1,
   ((fit_net_floor (fun _ _ (p : ℤ) (a : Unit) => (p + 1, a)) (fun _ _ _ => 1)
      () 100 4 0 2 ([0, 1, 2] : List ℤ) ([0, 1, 2] : List ℤ) (1 / 5) (1 / 10)).2.2
      (fun e _ => by norm_num [bestInit])).1⟩

/-- Claim C5 (amended): with non-negative fractions summing to at most
one, the training split is the first `int(np.round(n·(1−t−v)))` samples by
position and the test split consists of the samples that follow it, taken
contiguously and without overlap (their concatenation is an initial
segment of the data), the trailing validation portion being excluded; the
test split contains exactly `int(np.round(n·t))` samples whenever the two
rounded boundaries fit inside `n`, which the original claim implicitly
assumed but which can fail (see the counterexample). -/
theorem fit_net_split_positional {α : Type} (x : List α) (pct_test pct_validation : ℚ)
    (h1 : 0 ≤ pct_test) (h2 : 0 ≤ pct_validation) (h3 : pct_test + pct_validation ≤ 1) :
    trainSlice x x.length pct_test pct_validation =
      x.take (nTrainOf x.length pct_test pct_validation).toNat ∧
    testSlice x x.length pct_test pct_validation =
      (x.drop (nTrainOf x.length pct_test pct_validation).toNat).take
        (nTestOf x.length pct_test).toNat ∧
    trainSlice x x.length pct_test pct_validation ++
        testSlice x x.length pct_test pct_validation =
      x.take ((nTrainOf x.length pct_test pct_validation).toNat +
        (nTestOf x.length pct_test).toNat) ∧
    ((nTrainOf x.length pct_test pct_validation).toNat +
          (nTestOf x.length pct_test).toNat ≤ x.length →
      (trainSlice x x.length pct_test pct_validation).length =
        (nTrainOf x.length pct_test pct_validation).toNat ∧
      (testSlice x x.length pct_test pct_validation).length =
        (nTestOf x.length pct_test).toNat) := by
  have ha : (0 : ℤ) ≤ nTrainOf x.length pct_test pct_validation :=
    npRound_nonneg (mul_nonneg (Nat.cast_nonneg _) (by linarith))
  have hb : (0 : ℤ) ≤ nTestOf x.length pct_test :=
    npRound_nonneg (mul_nonneg (Nat.cast_nonneg _) h1)
  have hab : (nTrainOf x.length pct_test pct_validation +
      nTestOf x.length pct_test).toNat =
      (nTrainOf x.length pct_test pct_validation).toNat +
        (nTestOf x.length pct_test).toNat := by
    omega
  have e1 : trainSlice x x.length pct_test pct_validation =
      x.take (nTrainOf x.length pct_test pct_validation).toNat := by
    unfold trainSlice
    rw [pySlice_nonneg_eq _ _ _ le_rfl ha]
    simp
  have e2 : testSlice x x.length pct_test pct_validation =
      (x.drop (nTrainOf x.length pct_test pct_validation).toNat).take
        (nTestOf x.length pct_test).toNat := by
    unfold testSlice
    rw [pySlice_nonneg_eq _ _ _ ha (by omega), hab, List.take_drop]
  refine ⟨e1, e2, ?_, ?_⟩
  · rw [e1, e2, ← List.take_add]
  · intro hle
    constructor
    · rw [e1, List.length_take]; omega
    · rw [e2, List.length_take, List.length_drop]; omega

/-- Witness for C5 at concrete inputs `x = [0,1,2]`, `pct_test = 1/5`,
`pct_validation = 1/10`. -/
theorem fit_net_split_positional_witness :
    trainSlice ([0, 1, 2] : List ℤ) 3 (1 / 5) (1 / 10) =
      ([0, 1, 2] : List ℤ).take (nTrainOf 3 (1 / 5) (1 / 10)).toNat ∧
    testSlice ([0, 1, 2] : List ℤ) 3 (1 / 5) (1 / 10) =
      (([0, 1, 2] : List ℤ).drop (nTrainOf 3 (1 / 5) (1 / 10)).toNat).take
        (nTestOf 3 (1 / 5)).toNat ∧
    trainSlice ([0, 1, 2] : List ℤ) 3 (1 / 5) (1 / 10) ++
        testSlice ([0, 1, 2] : List ℤ) 3 (1 / 5) (1 / 10) =
      ([0, 1, 2] : List ℤ).take ((nTrainOf 3 (1 / 5) (1 / 10)).toNat +
        (nTestOf 3 (1 / 5)).toNat) ∧
    ((nTrainOf 3 (1 / 5) (1 / 10)).toNat + (nTestOf 3 (1 / 5)).toNat ≤ 3 →
      (trainSlice ([0, 1, 2] : List ℤ) 3 (1 / 5) (1 / 10)).length =
        (nTrainOf 3 (1 / 5) (1 / 10)).toNat ∧
      (testSlice ([0, 1, 2] : List ℤ) 3 (1 / 5) (1 / 10)).length =
        (nTestOf 3 (1 / 5)).toNat) :=
  fit_net_split_positional ([0, 1, 2] : List ℤ) (1 / 5) (1 / 10)
    (by norm_num) (by norm_num) (by norm_num)

/-- Counterexample to C5 as stated: with `n = 3` samples, `pct_test = 1/2`
and `pct_validation = 0`, both rounded boundaries are `2`
(`np.round(1.5) = 2` under half-to-even rounding), so the test slice
`x[2:4]` holds a single sample, not the `round(n·pct_test) = 2` samples
the claim promises. -/
theorem split_test_count_mismatch :
    (testSlice ([0, 1, 2] : List ℤ) 3 (1 / 2) 0).length ≠
      (nTestOf 3 (1 / 2)).toNat := by
  have hfl : ⌊(3 / 2 : ℚ)⌋ = 1 := by
    rw [Int.floor_eq_iff]
    norm_num
  have hr : npRound (3 / 2) = 2 := by
    unfold npRound
    rw [hfl]
    norm_num
  have ht : nTestOf 3 (1 / 2) = 2 := by
    unfold nTestOf
    rw [show ((3 : ℕ) : ℚ) * (1 / 2) = 3 / 2 by norm_num, hr]
  have htr : nTrainOf 3 (1 / 2) 0 = 2 := by
    unfold nTrainOf
    rw [show ((3 : ℕ) : ℚ) * (1 - 1 / 2 - 0) = 3 / 2 by norm_num, hr]
  have hts : testSlice ([0, 1, 2] : List ℤ) 3 (1 / 2) 0 = [2] := by
    unfold testSlice
    rw [htr, ht, pySlice_nonneg_eq _ _ _ (by norm_num) (by norm_num)]
    rfl
  rw [hts, ht]
  decide

/-- Claim C10: within an epoch, the test loss compared against the best
value is computed from the parameters as they stood before that epoch's
optimizer step, while the checkpoint recorded on improvement references
the parameters after the step: immediately after an improving epoch the
recorded best loss is `testLoss s.params` and the checkpoint's
`model_state_dict` reads as `(step s.params s.adam).1`, exactly one
optimizer step past the parameters that produced the loss. -/
theorem epoch_records_post_step_params {P A : Type}
    (step : P → A → P × A) (testLoss : P → ℚ) (nh nl : ℕ) (s : LoopState P A)
    (h : testLoss s.params < s.best_l) :
    (epochStep step testLoss nh nl s).best_l = testLoss s.params ∧
    stateDictValue (epochStep step testLoss nh nl s) =
      some (step s.params s.adam).1 := by
  simp [epochStep, stateDictValue, h]

/-- Witness for C10 at a concrete instantiation. -/
theorem epoch_records_post_step_params_witness :
    (epochStep (fun (p : ℤ) (a : Unit) => (p + 1, a)) (fun _ => 0) 100 4
      ⟨0, (), 1, none⟩).best_l = (fun (_ : ℤ) => (0 : ℚ)) 0 ∧
    stateDictValue (epochStep (fun (p : ℤ) (a : Unit) => (p + 1, a)) (fun _ => 0)
      100 4 ⟨0, (), 1, none⟩) = some 1 :=
  epoch_records_post_step_params (fun (p : ℤ) (a : Unit) => (p + 1, a))
    (fun _ => 0) 100 4 ⟨0, (), 1, none⟩ (by norm_num)

/-- Claim C8: `fit_net` is deterministic — two calls with identical
initial network parameters, identical features, labels, fractions, epoch
count, optimizer initialization and architecture produce identical
results (best test loss, checkpoint, final parameter and optimizer
state).  In the embedding the loop is a pure function of these inputs, so
this holds structurally. -/
theorem fit_net_deterministic {P A F L : Type}
    (mkStep : List F → List L → P → A → P × A)
    (mkTestLoss : List F → List L → P → ℚ)
    (adamInit adamInit' : A) (nh nh' nl nl' : ℕ) (p0 p0' : P) (n n' : ℕ)
    (x x' : List F) (y y' : List L) (pt pt' pv pv' : ℚ)
    (hp : p0 = p0') (hx : x = x') (hy : y = y') (hpt : pt = pt')
    (hpv : pv = pv') (hn : n = n') (ha : adamInit = adamInit')
    (hnh : nh = nh') (hnl : nl = nl') :
    fitNet mkStep mkTestLoss adamInit nh nl p0 n x y pt pv =
      fitNet mkStep mkTestLoss adamInit' nh' nl' p0' n' x' y' pt' pv' := by
  subst hp hx hy hpt hpv hn ha hnh hnl
  rfl

/-- Witness for C8 at a concrete instantiation. -/
theorem fit_net_deterministic_witness :
    fitNet (fun _ _ (p : ℤ) (a : Unit) => (p + 1, a)) (fun _ _ _ => 1)
        () 100 4 0 2 ([0, 1] : List ℤ) ([0, 1] : List ℤ) (1 / 5) (1 / 10) =
      fitNet (fun _ _ (p : ℤ) (a : Unit) => (p + 1, a)) (fun _ _ _ => 1)
        () 100 4 0 2 ([0, 1] : List ℤ) ([0, 1] : List ℤ) (1 / 5) (1 / 10) :=
  fit_net_deterministic _ _ () () 100 100 4 4 0 0 2 2 _ _ _ _ (1 / 5) (1 / 5)
    (1 / 10) (1 / 10) rfl rfl rfl rfl rfl rfl rfl rfl rfl

/-- In the two-epoch demonstration run, epoch 0 improves on the floor
(test loss `1/2000` at the initial parameters `0`), so the best loss is
updated, the checkpoint is recorded, and the optimizer step moves the
parameters to `1`. -/
theorem demo_epoch_one :
    epochStep (fun (p : ℤ) (a : Unit) => (p + 1, a))
        (fun p => if p = 0 then 1 / 2000 else 1) 100 4 ⟨0, (), bestInit, none⟩ =
      ⟨1, (), 1 / 2000, some ⟨100, 4⟩⟩ := by
  simp only [epochStep]
  norm_num [bestInit]

/-- In the two-epoch demonstration run, epoch 1 does not improve (test
loss `1` at parameters `1`), so the bookkeeping is unchanged while the
optimizer step moves the parameters to `2`. -/
theorem demo_epoch_two :
    epochStep (fun (p : ℤ) (a : Unit) => (p + 1, a))
        (fun p => if p = 0 then 1 / 2000 else 1) 100 4
        ⟨1, (), 1 / 2000, some ⟨100, 4⟩⟩ =
      ⟨2, (), 1 / 2000, some ⟨100, 4⟩⟩ := by
  simp only [epochStep]
  norm_num

/-- Claim C2 is violated by the code (a slip against the notebook's own
intent): here is a run whose returned `best_test_loss` is strictly below
the floor `1e-3`, yet the test loss of a forward pass from the returned
checkpoint's `model_state_dict` differs from the returned best loss.  The
parameters improve at epoch 0 (loss `1/2000`), the checkpoint dictionary
stores references to the live tensors, and the remaining epoch moves the
parameters on to `2`, whose test loss is `1`. -/
theorem fit_net_checkpoint_loss_mismatch :
    (fitNet (fun _ _ (p : ℤ) (a : Unit) => (p + 1, a))
        (fun _ _ (p : ℤ) => if p = 0 then 1 / 2000 else 1)
        () 100 4 0 2 ([] : List ℤ) ([] : List ℤ) (1 / 5) (1 / 10)).best_l
      < bestInit ∧
    checkpointModelStateDict
      (fitNet (fun _ _ (p : ℤ) (a : Unit) => (p + 1, a))
        (fun _ _ (p : ℤ) => if p = 0 then 1 / 2000 else 1)
        () 100 4 0 2 ([] : List ℤ) ([] : List ℤ) (1 / 5) (1 / 10)) = some 2 ∧
    (fun _ _ (p : ℤ) => if p = 0 then (1 / 2000 : ℚ) else 1)
        (testSlice ([] : List ℤ) 0 (1 / 5) (1 / 10))
        (testSlice ([] : List ℤ) 0 (1 / 5) (1 / 10)) 2 ≠
      (fitNet (fun _ _ (p : ℤ) (a : Unit) => (p + 1, a))
        (fun _ _ (p : ℤ) => if p = 0 then 1 / 2000 else 1)
        () 100 4 0 2 ([] : List ℤ) ([] : List ℤ) (1 / 5) (1 / 10)).best_l := by
  have hfit : fitNet (fun _ _ (p : ℤ) (a : Unit) => (p + 1, a))
      (fun _ _ (p : ℤ) => if p = 0 then 1 / 2000 else 1)
      () 100 4 0 2 ([] : List ℤ) ([] : List ℤ) (1 / 5) (1 / 10) =
      ⟨1 / 2000, some ⟨100, 4⟩, 2, ()⟩ := by
    simp only [fitNet, trainSlice, testSlice, pySlice, List.take_nil,
      List.drop_nil, List.length_nil]
    rw [show (2 : ℕ) = 1 + 1 from rfl, Function.iterate_succ_apply',
      Function.iterate_one, demo_epoch_one, demo_epoch_two]
  rw [hfit]
  exact ⟨by norm_num [bestInit], by simp [checkpointModelStateDict], by norm_num⟩

/-- Claim C3 is violated by the code (a slip against the notebook's own
intent): the checkpoint is not an immutable snapshot.  In the run below
the checkpoint is recorded at epoch 0 and never re-recorded, yet reading
its `model_state_dict` after epoch 0 gives `1` while reading it after
epoch 1 gives `2` — the later epoch's optimizer step altered the stored
contents, because `state_dict()` returns references, not copies. -/
theorem checkpoint_not_immutable :
    ((epochStep (fun (p : ℤ) (a : Unit) => (p + 1, a))
        (fun p => if p = 0 then 1 / 2000 else 1) 100 4)^[1]
        ⟨0, (), bestInit, none⟩).checkpoint = some ⟨100, 4⟩ ∧
    ((epochStep (fun (p : ℤ) (a : Unit) => (p + 1, a))
        (fun p => if p = 0 then 1 / 2000 else 1) 100 4)^[2]
        ⟨0, (), bestInit, none⟩).checkpoint =
      ((epochStep (fun (p : ℤ) (a : Unit) => (p + 1, a))
        (fun p => if p = 0 then 1 / 2000 else 1) 100 4)^[1]
        ⟨0, (), bestInit, none⟩).checkpoint ∧
    stateDictValue ((epochStep (fun (p : ℤ) (a : Unit) => (p + 1, a))
        (fun p => if p = 0 then 1 / 2000 else 1) 100 4)^[1]
        ⟨0, (), bestInit, none⟩) = some 1 ∧
    stateDictValue ((epochStep (fun (p : ℤ) (a : Unit) => (p + 1, a))
        (fun p => if p = 0 then 1 / 2000 else 1) 100 4)^[2]
        ⟨0, (), bestInit, none⟩) = some 2 := by
  have h1 : (epochStep (fun (p : ℤ) (a : Unit) => (p + 1, a))
      (fun p => if p = 0 then 1 / 2000 else 1) 100 4)^[1]
      ⟨0, (), bestInit, none⟩ = ⟨1, (), 1 / 2000, some ⟨100, 4⟩⟩ := by
    rw [Function.iterate_one, demo_epoch_one]
  have h2 : (epochStep (fun (p : ℤ) (a : Unit) => (p + 1, a))
      (fun p => if p = 0 then 1 / 2000 else 1) 100 4)^[2]
      ⟨0, (), bestInit, none⟩ = ⟨2, (), 1 / 2000, some ⟨100, 4⟩⟩ := by
    rw [show (2 : ℕ) = 1 + 1 from rfl, Function.iterate_succ_apply',
      Function.iterate_one, demo_epoch_one, demo_epoch_two]
  rw [h1, h2]
  exact ⟨rfl, rfl, rfl, rfl⟩

end BSM
